import Mathlib

/-!
Verification of the spreadsheet reconciliation pipeline in
`usage_transformation.py` (price-book ingestion, billing-term composition,
usage reconciliation and report aggregation).

Modelling conventions:
* Python dicts become association lists with dict semantics
  (`lookupA` = first match; keys are kept unique by the update operations,
  mirroring insertion-order-preserving Python dicts).
* Numeric spreadsheet cells carry their exact rational value as `ℚ`; a
  cell whose numeric parse fails is an `Option` `none` (the code treats it
  as a zero contribution).  A parsed CPython float is a binary64 value, so
  its exact rational value is representable.
* The float accumulation of meter values in the aggregation dict
  (`usage_lookup[key] += meter_float`) is binary64 arithmetic: it is
  modelled by `flAdd`, exact addition followed by IEEE-754
  round-to-nearest-ties-to-even (`flRound`).  The `Decimal` arithmetic of
  the Enterprise Support / Prepaid computations is exact and stays exact
  `ℚ`.  The report aggregator's float sums are idealised as exact
  rationals: the claims about it concern grouping and filtering structure
  only.
* `Decimal.quantize(Decimal(0.01), ROUND_HALF_UP)` becomes `roundHalfUp2`.
* External I/O (pandas readers, HTTP APIs) is out of scope: functions take
  the already-parsed table rows / registry snapshots as arguments, exactly
  the data the Python code iterates over.
-/

set_option maxRecDepth 100000

/- `Rat.add` and friends are `@[irreducible]` by default, which blocks
`decide` from evaluating concrete rational arithmetic; restore the normal
transparency so concrete instances reduce. -/
set_option allowUnsafeReducibility true in
attribute [semireducible] Rat.add Rat.mul Rat.inv Rat.sub Rat.neg Rat.div

/-- Dict lookup: first entry whose key matches (Python dict `get`). -/
def lookupA {κ α : Type} [DecidableEq κ] : List (κ × α) → κ → Option α
  | [], _ => none
  | (k, v) :: m, q => if q = k then some v else lookupA m q

/-- `d[k] = d.get(k, 0) + v`: add `v` to the entry for `k`, creating it
(at the end, as Python dict insertion does) when absent. -/
def updAdd {κ : Type} [DecidableEq κ] : List (κ × ℚ) → κ → ℚ → List (κ × ℚ)
  | [], k, v => [(k, v)]
  | (q, w) :: m, k, v => if k = q then (q, w + v) :: m else (q, w) :: updAdd m k v

/-- `d[k] = v`: overwrite the entry for `k`, creating it when absent. -/
def updSet {κ α : Type} [DecidableEq κ] : List (κ × α) → κ → α → List (κ × α)
  | [], k, v => [(k, v)]
  | (q, w) :: m, k, v => if k = q then (q, v) :: m else (q, w) :: updSet m k v

/-- `if k not in d: d[k] = v`. -/
def setIfAbsent {κ α : Type} [DecidableEq κ] (m : List (κ × α)) (k : κ) (v : α) :
    List (κ × α) :=
  if (lookupA m k).isSome then m else m ++ [(k, v)]

/-- Summing fold: feed a stream of `(key, value)` pairs into an empty dict,
adding values of equal keys. -/
def foldAdd {κ : Type} [DecidableEq κ] (ps : List (κ × ℚ)) : List (κ × ℚ) :=
  ps.foldl (fun m p => updAdd m p.1 p.2) []

/-- Dict value with default 0 (Python `d.get(k, 0)`). -/
def valueAt {κ : Type} [DecidableEq κ] (m : List (κ × ℚ)) (q : κ) : ℚ :=
  (lookupA m q).getD 0

theorem lookupA_updAdd {κ : Type} [DecidableEq κ] (m : List (κ × ℚ)) (k q : κ) (v : ℚ) :
    lookupA (updAdd m k v) q =
      if q = k then some (((lookupA m k).getD 0) + v) else lookupA m q := by
  induction m with
  | nil =>
    by_cases h : q = k <;> simp [updAdd, lookupA, h]
  | cons p m ih =>
    obtain ⟨a, w⟩ := p
    by_cases hk : k = a
    · subst hk
      by_cases hq : q = k <;> simp [updAdd, lookupA, hq]
    · by_cases hq : q = a
      · subst hq
        simp [updAdd, lookupA, hk, Ne.symm hk]
      · simp [updAdd, lookupA, hk, hq, ih]

theorem lookupA_foldl_updAdd {κ : Type} [DecidableEq κ] (ps : List (κ × ℚ))
    (m : List (κ × ℚ)) (q : κ) :
    lookupA (ps.foldl (fun m p => updAdd m p.1 p.2) m) q =
      (if (lookupA m q).isSome ∨ (ps.filter (fun p => p.1 = q)) ≠ [] then
        some ((lookupA m q).getD 0 + ((ps.filter (fun p => p.1 = q)).map Prod.snd).sum)
      else none) := by
  induction ps generalizing m with
  | nil =>
    cases h : lookupA m q <;> simp [h]
  | cons p ps ih =>
    obtain ⟨k, v⟩ := p
    by_cases hk : k = q
    · subst hk
      rw [List.foldl_cons, ih]
      simp only [lookupA_updAdd, if_pos rfl]
      simp [add_assoc]
    · rw [List.foldl_cons, ih]
      have hqk : ¬ q = k := fun h => hk h.symm
      have hf : List.filter (fun p => decide (p.1 = q)) ((k, v) :: ps)
          = List.filter (fun p => decide (p.1 = q)) ps := by
        rw [List.filter_cons]
        simp [hk]
      rw [lookupA_updAdd, if_neg hqk, hf]

theorem valueAt_foldAdd {κ : Type} [DecidableEq κ] (ps : List (κ × ℚ)) (q : κ) :
    valueAt (foldAdd ps) q = ((ps.filter (fun p => p.1 = q)).map Prod.snd).sum := by
  unfold valueAt foldAdd
  rw [lookupA_foldl_updAdd]
  by_cases h : (ps.filter (fun p => p.1 = q)) = [] <;> simp [lookupA, h]

theorem lookupA_append {κ α : Type} [DecidableEq κ] (a b : List (κ × α)) (q : κ) :
    lookupA (a ++ b) q = ((lookupA a q).rec (lookupA b q) (fun v => some v)) := by
  induction a with
  | nil => simp [lookupA]
  | cons p a ih =>
    by_cases h : q = p.1 <;> simp [lookupA, h, ih]

/-- `Decimal.quantize(Decimal(1), ROUND_HALF_UP)` on `x`: round to the
nearest integer, ties away from zero. -/
def rhuInt (x : ℚ) : ℤ :=
  if 0 ≤ x then ⌊x + 1 / 2⌋ else -⌊-x + 1 / 2⌋

/-- `Decimal.quantize(Decimal('0.01'), ROUND_HALF_UP)`: round to two
decimal places, half up (ties away from zero). -/
def roundHalfUp2 (x : ℚ) : ℚ :=
  (rhuInt (x * 100) : ℚ) / 100

theorem roundHalfUp2_zero : roundHalfUp2 0 = 0 := by
  norm_num [roundHalfUp2, rhuInt]

/-! ## IEEE-754 binary64 rounding (CPython `float` arithmetic) -/

/-- Binary search for `⌊log₂ n⌋` on the interval `[lo, hi)`, keeping the
invariant `2 ^ lo ≤ n < 2 ^ hi`. -/
def log2Aux : ℕ → ℕ → ℕ → ℕ → ℕ
  | 0, lo, _, _ => lo
  | s + 1, lo, hi, n =>
    let mid := (lo + hi) / 2
    if 2 ^ mid ≤ n then log2Aux s mid hi n else log2Aux s lo mid n

/-- `⌊log₂ n⌋` for `1 ≤ n < 2 ^ 256`: eight binary-search steps. -/
def log2Small (n : ℕ) : ℕ := log2Aux 8 0 256 n

/-- `⌊log₂ n⌋` computed 256 bits at a time. -/
def log2Big : ℕ → ℕ → ℕ
  | 0, _ => 0
  | f + 1, n => if n < 2 ^ 256 then log2Small n else log2Big f (n / 2 ^ 256) + 256

/-- `⌊log₂ n⌋`, exact for every `1 ≤ n < 2 ^ 5376` — which covers the
numerator and denominator of any sum of two binary64 values (their
exponents lie within ±1075), the only arguments `flRound` receives in
this model. -/
def log2N (n : ℕ) : ℕ := log2Big 20 n

/-- The floor of the base-2 logarithm of `P / Q` (for `P, Q ≥ 1`), in
integer arithmetic: first guess from the two logarithms, then adjust by
one. -/
def log2floorN (P Q : ℕ) : ℤ :=
  let e0 : ℤ := (log2N P : ℤ) - (log2N Q : ℤ)
  if 0 ≤ e0 then (if Q * 2 ^ e0.toNat ≤ P then e0 else e0 - 1)
  else (if Q ≤ P * 2 ^ (-e0).toNat then e0 else e0 - 1)

/-- Round a rational to the nearest IEEE-754 binary64 value (round to
nearest, ties to even), with gradual underflow below `2 ^ (-1022)`: the
rounding CPython applies to the result of every float operation.  The
mantissa `m` of `|x| = (m + r) * 2 ^ ulp` with `0 ≤ r < 1` is computed on
the integer numerator and denominator and rounded by comparing the
remainder against half the denominator.  The finite range is not
clamped — the billing pipeline never nears `2 ^ 1024`. -/
def flRound (x : ℚ) : ℚ :=
  if x.num = 0 then 0
  else
    let P : ℕ := x.num.natAbs
    let Q : ℕ := x.den
    let ulp : ℤ := max (log2floorN P Q - 52) (-1074)
    let numer : ℕ := if 0 ≤ ulp then P else P * 2 ^ (-ulp).toNat
    let denom : ℕ := if 0 ≤ ulp then Q * 2 ^ ulp.toNat else Q
    let m0 : ℕ := numer / denom
    let m : ℕ :=
      if 2 * (numer % denom) < denom then m0
      else if denom < 2 * (numer % denom) then m0 + 1
      else if m0 % 2 = 0 then m0 else m0 + 1
    let sm : ℤ := if x.num < 0 then -(m : ℤ) else (m : ℤ)
    if 0 ≤ ulp then Rat.divInt (sm * 2 ^ ulp.toNat) 1
    else Rat.divInt sm (2 ^ (-ulp).toNat)

/-- CPython float addition `a + b`: the exact sum, rounded to binary64. -/
def flAdd (a b : ℚ) : ℚ := flRound (a + b)

/-- `d[key] = 0; d[key] += v` in binary64 floats: add `v` to the entry for
`k` with float rounding, creating the entry (at the end, as Python dict
insertion does) when absent. -/
def updAddFl {κ : Type} [DecidableEq κ] : List (κ × ℚ) → κ → ℚ → List (κ × ℚ)
  | [], k, v => [(k, flAdd 0 v)]
  | (q, w) :: m, k, v => if k = q then (q, flAdd w v) :: m else (q, w) :: updAddFl m k v

theorem lookupA_updAddFl {κ : Type} [DecidableEq κ] (m : List (κ × ℚ)) (k q : κ) (v : ℚ) :
    lookupA (updAddFl m k v) q =
      if q = k then some (flAdd ((lookupA m k).getD 0) v) else lookupA m q := by
  induction m with
  | nil =>
    by_cases h : q = k <;> simp [updAddFl, lookupA, h]
  | cons p m ih =>
    obtain ⟨a, w⟩ := p
    by_cases hk : k = a
    · subst hk
      by_cases hq : q = k <;> simp [updAddFl, lookupA, hq]
    · by_cases hq : q = a
      · subst hq
        simp [updAddFl, lookupA, hk, Ne.symm hk]
      · simp [updAddFl, lookupA, hk, hq, ih]

theorem lookupA_foldl_updAddFl {κ : Type} [DecidableEq κ] (ps : List (κ × ℚ))
    (m : List (κ × ℚ)) (q : κ) :
    lookupA (ps.foldl (fun m p => updAddFl m p.1 p.2) m) q =
      (if (lookupA m q).isSome ∨ (ps.filter (fun p => p.1 = q)) ≠ [] then
        some (((ps.filter (fun p => p.1 = q)).map Prod.snd).foldl flAdd
          ((lookupA m q).getD 0))
      else none) := by
  induction ps generalizing m with
  | nil =>
    cases h : lookupA m q <;> simp [h]
  | cons p ps ih =>
    obtain ⟨k, v⟩ := p
    by_cases hk : k = q
    · subst hk
      rw [List.foldl_cons, ih]
      simp only [lookupA_updAddFl, if_pos rfl]
      simp
    · rw [List.foldl_cons, ih]
      have hqk : ¬ q = k := fun h => hk h.symm
      have hf : List.filter (fun p => decide (p.1 = q)) ((k, v) :: ps)
          = List.filter (fun p => decide (p.1 = q)) ps := by
        rw [List.filter_cons]
        simp [hk]
      rw [lookupA_updAddFl, if_neg hqk, hf]

theorem valueAt_foldl_updAddFl {κ : Type} [DecidableEq κ] (ps : List (κ × ℚ)) (q : κ) :
    valueAt (ps.foldl (fun m p => updAddFl m p.1 p.2) []) q
      = ((ps.filter (fun p => p.1 = q)).map Prod.snd).foldl flAdd 0 := by
  unfold valueAt
  rw [lookupA_foldl_updAddFl]
  by_cases h : (ps.filter (fun p => p.1 = q)) = [] <;> simp [lookupA, h]

/-! ## Usage reconciler (`create_tabs_ready_usage`) data model -/

/-- One row of the raw monthly usage export, after the string coercions
`astype(str)` on `Tenant ID`, `Tenant Name` and `Contract`.  `meter` is the
exact rational value of the binary64 double produced by `float(...)` on the
`Meter` cell (`none` when the parse fails or the cell is NaN; the code then
contributes 0). -/
structure UsageRow where
  tenantId : String
  tenantName : String
  skuName : String
  contract : String
  meter : Option ℚ
deriving DecidableEq

/-- A raw usage row whose `Tenant ID` resolved to a customer id
(`raw_usage_df` after the `customer_id` map and the `notna` filter). -/
structure RRow where
  customerId : String
  tenantId : String
  tenantName : String
  skuName : String
  contract : String
  meter : Option ℚ
deriving DecidableEq

/-- One row of `tabs_bt_contract` as read by the reconciler: everything is
read through `str(...)`; `amount_1` additionally carries its numeric parse
(`none` when `Decimal(...)` fails; the code then uses 0). -/
structure BTRow where
  customer_id : String
  tenant_id : String
  name : String
  contract_name : String
  event_to_track : String
  amount_1 : Option ℚ
deriving DecidableEq

/-- One row of the enterprise-support file: `Tenant ID` as a string and the
numeric parse of column E after stripping a trailing percent sign
(`none` when `float(...)` fails). -/
structure ESRow where
  tenantId : String
  pct : Option ℚ
deriving DecidableEq

/-- The data kept in `enterprise_support_rows` / `prepaid_rows` for a
synthetic billing term. -/
structure SynthTerm where
  customer_id : String
  name : String
  contract_name : String
  event_type_id : String
deriving DecidableEq

/-- One output usage row (`output_df`). -/
structure UsageEvent where
  customer_id : String
  event_type_id : String
  event_type_name : String
  dt : String
  value : ℚ
  differentiator : String
  invoice : Nat
deriving DecidableEq

/-- `raw_usage_df['customer_id'] = raw_usage_df['Tenant ID'].map(...)`
followed by dropping the rows where the map missed.  `reg` is the
`tenant_to_customer_id` dict built from the customer registry. -/
def resolveRows (reg : List (String × String)) (rows : List UsageRow) : List RRow :=
  rows.filterMap (fun r =>
    (lookupA reg r.tenantId).map (fun c =>
      { customerId := c, tenantId := r.tenantId, tenantName := r.tenantName,
        skuName := r.skuName, contract := r.contract, meter := r.meter }))

/-- The aggregation key `(customer_id, SKU Name, Contract, Tenant Name)`. -/
def keyOf (r : RRow) : String × String × String × String :=
  (r.customerId, r.skuName, r.contract, r.tenantName)

/-- `usage_lookup`: initialise each key at 0 and accumulate every row's
meter value with CPython float (binary64) addition — an unparseable meter
adds nothing, i.e. adds 0 (and rounding a value already in binary64 leaves
it unchanged). -/
def usage_lookup (rs : List RRow) : List ((String × String × String × String) × ℚ) :=
  (rs.map (fun r => (keyOf r, r.meter.getD 0))).foldl (fun m p => updAddFl m p.1 p.2) []

/-- `if tenant_name not in seen: seen.append(tenant_name)`. -/
def addName (ns : List String) (n : String) : List String :=
  if n ∈ ns then ns else ns ++ [n]

/-- One step of building `tenant_id_to_tenant_names`. -/
def updNames : List (String × List String) → String → String → List (String × List String)
  | [], tid, n => [(tid, [n])]
  | (t, ns) :: m, tid, n =>
    if tid = t then (t, addName ns n) :: m else (t, ns) :: updNames m tid n

/-- `tenant_id_to_tenant_names`: per tenant id, its distinct tenant names in
first-seen order. -/
def tenant_id_to_tenant_names (rs : List RRow) : List (String × List String) :=
  rs.foldl (fun m r => updNames m r.tenantId r.tenantName) []

/-- The distinct tenant names of one tenant id in order of first appearance
in the (resolved) raw usage rows. -/
def namesFor (rs : List RRow) (tid : String) : List String :=
  ((rs.filter (fun r => decide (r.tenantId = tid))).map (fun r => r.tenantName)).foldl addName []

/-- `invoice_mapping`: `(Tenant ID, Tenant Name) -> sequential index from 1`. -/
def invoice_mapping (rs : List RRow) : List ((String × String) × Nat) :=
  (tenant_id_to_tenant_names rs).flatMap
    (fun p => p.2.enum.map (fun q => ((p.1, q.2), q.1 + 1)))

/-- `customer_id_to_tenant_id = {v: k for k, v in tenant_to_customer_id.items()}`. -/
def customer_id_to_tenant_id (reg : List (String × String)) : List (String × String) :=
  reg.foldl (fun m p => updSet m p.2 p.1) []

/-- `needle` is a prefix of `hay` (Boolean). -/
def pfxMatch {α : Type} [DecidableEq α] : List α → List α → Bool
  | [], _ => true
  | _ :: _, [] => false
  | a :: as, b :: bs => decide (a = b) && pfxMatch as bs

/-- Python substring containment `needle in hay`. -/
def infixMatch {α : Type} [DecidableEq α] (n : List α) : List α → Bool
  | [] => pfxMatch n []
  | b :: t => pfxMatch n (b :: t) || infixMatch n t

/-- `'Enterprise Support' in sku_name`. -/
def containsES (s : String) : Bool :=
  infixMatch "Enterprise Support".toList s.toList

/-- `'Prepaid' in sku_name`. -/
def containsPre (s : String) : Bool :=
  infixMatch "Prepaid".toList s.toList

/-- The four tables built by the classification loop over `tabs_bt_contract`:
the `event_type_id` dict, the Enterprise Support terms, the Prepaid terms,
and the set of valid `(customer_id, name, contract_name)` triples. -/
structure Classified where
  emap : List ((String × String × String) × String)
  esTerms : List SynthTerm
  pTerms : List SynthTerm
  valid : List (String × String × String)

/-- One iteration of the loop over `tabs_bt_contract.iterrows()`: skip
blank/NaN rows, fill `event_type_id_map`, and sort the term into the
Enterprise Support, Prepaid or regular (`valid_billing_terms`) bucket. -/
def classifyStep (acc : Classified) (r : BTRow) : Classified :=
  if r.customer_id = "" ∨ r.name = "" ∨ r.customer_id = "nan" ∨ r.name = "nan" then acc
  else
    let acc2 := { acc with
      emap := updSet acc.emap (r.customer_id, r.name, r.contract_name) r.event_to_track }
    if containsES r.name then
      { acc2 with esTerms := acc2.esTerms ++
          [⟨r.customer_id, r.name, r.contract_name, r.event_to_track⟩] }
    else if containsPre r.name then
      { acc2 with pTerms := acc2.pTerms ++
          [⟨r.customer_id, r.name, r.contract_name, r.event_to_track⟩] }
    else
      { acc2 with valid := acc2.valid ++ [(r.customer_id, r.name, r.contract_name)] }

/-- The classification loop over `tabs_bt_contract.iterrows()`. -/
def classify (terms : List BTRow) : Classified :=
  terms.foldl classifyStep ⟨[], [], [], []⟩

/-- The regular output rows: one per `usage_lookup` entry whose
`(customer_id, SKU, Contract)` projection matches a regular billing term. -/
def regularEvents (cls : Classified) (lk : List ((String × String × String × String) × ℚ))
    (inv : List ((String × String) × Nat)) (rev : List (String × String))
    (date : String) : List UsageEvent :=
  lk.filterMap (fun e =>
    if (e.1.1, e.1.2.1, e.1.2.2.1) ∈ cls.valid then
      some { customer_id := e.1.1,
             event_type_id := (lookupA cls.emap (e.1.1, e.1.2.1, e.1.2.2.1)).getD "",
             event_type_name := e.1.2.1,
             dt := date,
             value := e.2,
             differentiator := "",
             invoice := (lookupA inv ((lookupA rev e.1.1).getD "", e.1.2.2.2)).getD 1 }
    else none)

/-- `contract_to_invoice`: first invoice number seen for each
`(customer_id, Contract)` with a valid billing term. -/
def contract_to_invoice (cls : Classified)
    (lk : List ((String × String × String × String) × ℚ))
    (inv : List ((String × String) × Nat)) (rev : List (String × String)) :
    List ((String × String) × Nat) :=
  lk.foldl (fun m e =>
    if (e.1.1, e.1.2.1, e.1.2.2.1) ∈ cls.valid then
      setIfAbsent m (e.1.1, e.1.2.2.1)
        ((lookupA inv ((lookupA rev e.1.1).getD "", e.1.2.2.2)).getD 1)
    else m) []

/-- `customer_to_enterprise_pct`: for each enterprise-support file row whose
percentage parses, normalise (divide by 100 when `> 1`) and key it by the
customer id the tenant resolves to. -/
def customer_to_enterprise_pct (esf : List ESRow) (reg : List (String × String)) :
    List (String × ℚ) :=
  esf.foldl (fun m r =>
    match r.pct with
    | none => m
    | some p =>
      let pv := if 1 < p then p / 100 else p
      match lookupA reg r.tenantId with
      | some c => updSet m c pv
      | none => m) []

/-- `amount_1` of the first `tabs_bt_contract` row matching
`(customer_id, name)`; 0 when the row is absent or its amount fails to
parse (both cases contribute 0 in the code). -/
def amountFor (terms : List BTRow) (c n : String) : ℚ :=
  match terms.find? (fun t => decide (t.customer_id = c ∧ t.name = n)) with
  | some t => t.amount_1.getD 0
  | none => 0

/-- The Enterprise Support value: when the percentage is positive, sum
`value × amount_1` over the customer's rows of `output_df` (which excludes
rows named exactly `Enterprise Support`), multiply by the percentage and
round half-up to 2 decimals; otherwise 0. -/
def esValue (regular : List UsageEvent) (terms : List BTRow) (pct : ℚ) (c : String) : ℚ :=
  if 0 < pct then
    let rows := regular.filter (fun e =>
      decide (e.customer_id = c ∧ e.event_type_name ≠ "Enterprise Support"))
    if rows.isEmpty then 0
    else roundHalfUp2
      ((rows.map (fun e => e.value * amountFor terms c e.event_type_name)).sum * pct)
  else 0

/-- The Enterprise Support output row for one synthetic term. -/
def mkESEvent (regular : List UsageEvent) (terms : List BTRow)
    (c2i : List ((String × String) × Nat)) (pctMap : List (String × ℚ))
    (date : String) (t : SynthTerm) : UsageEvent :=
  { customer_id := t.customer_id,
    event_type_id := t.event_type_id,
    event_type_name := t.name,
    dt := date,
    value := esValue regular terms ((lookupA pctMap t.customer_id).getD 0) t.customer_id,
    differentiator := "",
    invoice := (lookupA c2i (t.customer_id, t.contract_name)).getD 1 }

/-- The Prepaid value: sum `value × amount_1` over all of the customer's
rows of `output_df` (Enterprise Support rows included, Prepaid rows not yet
appended) and round half-up to 2 decimals. -/
def prepaidValue (sofar : List UsageEvent) (terms : List BTRow) (c : String) : ℚ :=
  let rows := sofar.filter (fun e => decide (e.customer_id = c))
  if rows.isEmpty then 0
  else roundHalfUp2 ((rows.map (fun e => e.value * amountFor terms c e.event_type_name)).sum)

/-- The Prepaid output row for one synthetic term. -/
def mkPrepaidEvent (sofar : List UsageEvent) (terms : List BTRow)
    (c2i : List ((String × String) × Nat)) (date : String) (t : SynthTerm) : UsageEvent :=
  { customer_id := t.customer_id,
    event_type_id := t.event_type_id,
    event_type_name := t.name,
    dt := date,
    value := prepaidValue sofar terms t.customer_id,
    differentiator := "",
    invoice := (lookupA c2i (t.customer_id, t.contract_name)).getD 1 }

/-- The regular part of the output (`output_df` before synthetic rows). -/
def regularPart (raw : List UsageRow) (terms : List BTRow)
    (reg : List (String × String)) (date : String) : List UsageEvent :=
  regularEvents (classify terms) (usage_lookup (resolveRows reg raw))
    (invoice_mapping (resolveRows reg raw)) (customer_id_to_tenant_id reg) date

/-- The `contract_to_invoice` dict of a run. -/
def c2iPart (raw : List UsageRow) (terms : List BTRow)
    (reg : List (String × String)) : List ((String × String) × Nat) :=
  contract_to_invoice (classify terms) (usage_lookup (resolveRows reg raw))
    (invoice_mapping (resolveRows reg raw)) (customer_id_to_tenant_id reg)

/-- The Enterprise Support rows appended to `output_df`. -/
def esPart (raw : List UsageRow) (terms : List BTRow) (esf : List ESRow)
    (reg : List (String × String)) (date : String) : List UsageEvent :=
  (classify terms).esTerms.map
    (mkESEvent (regularPart raw terms reg date) terms (c2iPart raw terms reg)
      (customer_to_enterprise_pct esf reg) date)

/-- The Prepaid rows appended to `output_df` (computed against the table
that already contains the Enterprise Support rows). -/
def prepaidPart (raw : List UsageRow) (terms : List BTRow) (esf : List ESRow)
    (reg : List (String × String)) (date : String) : List UsageEvent :=
  (classify terms).pTerms.map
    (mkPrepaidEvent (regularPart raw terms reg date ++ esPart raw terms esf reg date)
      terms (c2iPart raw terms reg) date)

/-- `create_tabs_ready_usage`.  The two empty branches reproduce the
`KeyError` paths: indexing an empty, column-less `output_df` (no regular
rows yet) inside the Enterprise Support block (reached only when some
Enterprise Support term has a positive percentage) or inside the Prepaid
block (reached when no Enterprise Support row was appended either) raises,
is caught by the surrounding `except`, and the function returns an empty
DataFrame. -/
def create_tabs_ready_usage (raw : List UsageRow) (terms : List BTRow)
    (esf : List ESRow) (reg : List (String × String)) (date : String) :
    List UsageEvent :=
  if terms.isEmpty then []
  else if (regularPart raw terms reg date).isEmpty ∧ (classify terms).esTerms.any
      (fun t => decide (0 < (lookupA (customer_to_enterprise_pct esf reg) t.customer_id).getD 0)) then []
  else if (regularPart raw terms reg date).isEmpty ∧ (classify terms).esTerms.isEmpty ∧
      ¬ (classify terms).pTerms.isEmpty then []
  else regularPart raw terms reg date ++ esPart raw terms esf reg date
        ++ prepaidPart raw terms esf reg date

/-! ## Report aggregator (`generate_commit_consumption_data`) -/

/-- `str.lower()` (ASCII casing). -/
def lowerStr (s : String) : String :=
  (s.toList.map Char.toLower).asString

/-- Case-insensitive `'Prepaid'` containment
(`.str.contains('Prepaid', case=False)`). -/
def containsPreCI (s : String) : Bool :=
  infixMatch "prepaid".toList (s.toList.map Char.toLower)

/-- `customer_to_info`: last `(tenant_id, contract_name)` seen per
customer id in `tabs_bt_contract`. -/
def customer_to_info (terms : List BTRow) : List (String × (String × String)) :=
  terms.foldl (fun m r =>
    if r.customer_id = "" ∨ r.customer_id = "nan" then m
    else updSet m r.customer_id (r.tenant_id, r.contract_name)) []

/-- `amount_lookup`: last parsed `amount_1` per `(customer_id, name)`. -/
def amount_lookup (terms : List BTRow) : List ((String × String) × ℚ) :=
  terms.foldl (fun m r =>
    if r.customer_id = "" ∨ r.name = "" ∨ r.customer_id = "nan" then m
    else updSet m (r.customer_id, r.name) (r.amount_1.getD 0)) []

/-- `generate_commit_consumption_data`: for every non-Prepaid usage row
whose customer appears in `customer_to_info`, accumulate
`amount_1 * meter_value` under the customer's `(tenant_id, contract_name)`. -/
def generate_commit_consumption_data (events : List UsageEvent) (terms : List BTRow) :
    List ((String × String) × ℚ) :=
  foldAdd
    (((events.filter (fun e => !(containsPreCI e.event_type_name))).filterMap
      (fun e => (lookupA (customer_to_info terms) e.customer_id).map
        (fun info => (info, valueAt (amount_lookup terms) (e.customer_id, e.event_type_name) * e.value)))))

/-! ## Billing-term upload filter (`tabs_billing_terms_to_upload`) -/

/-- One row of the composed billing-term table as matched by the upload
filter; `rest` stands for the remaining (untouched) columns. -/
structure FiltRow where
  tenant_id : String
  name : String
  contract_name : String
  rest : String
deriving DecidableEq

/-- `matching_tuples`: the `(Tenant ID, SKU Name, Contract)` triples of the
raw monthly usage file. -/
def usageTriples (raws : List UsageRow) : List (String × String × String) :=
  raws.map (fun r => (r.tenantId, r.skuName, r.contract))

/-- `tabs_billing_terms_to_upload`: keep exactly the billing-term rows whose
`(tenant_id, name, contract_name)` occurs among the raw-usage triples. -/
def tabs_billing_terms_to_upload (rows : List FiltRow)
    (triples : List (String × String × String)) : List FiltRow :=
  rows.filter (fun r => (r.tenant_id, r.name, r.contract_name) ∈ triples)

/-! ## Synthetic composer stages (`enterprise_support`, `prepaid`) -/

/-- One row of the composed billing-term table as used by the synthetic
composer stages. -/
structure CompRow where
  customer_id : String
  tenant_id : String
  name : String
  amount_1 : String
  is_recurring : String
  net_payment_terms : String
deriving DecidableEq

/-- pandas `.unique()`: distinct values in first-seen order. -/
def dedupFS (l : List String) : List String :=
  l.foldl addName []

/-- `tenant_to_customer_id` of a composer stage: for each distinct tenant id
of the auxiliary file, the `customer_id` of the first billing-term row with
that `tenant_id`, skipping tenants with no match. -/
def stageT2C (terms : List CompRow) (fileTenants : List String) :
    List (String × String) :=
  (dedupFS fileTenants).filterMap (fun t =>
    (terms.find? (fun r => decide (r.tenant_id = t))).map (fun r => (t, r.customer_id)))

/-- The `net_payment_terms` copied from the first row with the resolved
customer id.  The composed table carries both a `Net Terms` and a
`net_payment_terms` column, but the latter is built from the former
(`fillna('')`), so the code's two lookup branches yield the same string;
the model keeps that single shared value per row. -/
def stageNetTerms (terms : List CompRow) (c : String) : String :=
  ((terms.find? (fun r => decide (r.customer_id = c))).map
    (fun r => r.net_payment_terms)).getD ""

/-- The synthetic Enterprise Support billing-term row. -/
def mkESCompRow (terms : List CompRow) (t c : String) : CompRow :=
  { customer_id := c, tenant_id := t, name := "Enterprise Support",
    amount_1 := "1", is_recurring := "FALSE",
    net_payment_terms := stageNetTerms terms c }

/-- The synthetic Prepaid billing-term row. -/
def mkPrepaidCompRow (terms : List CompRow) (t c : String) : CompRow :=
  { customer_id := c, tenant_id := t, name := "Prepaid",
    amount_1 := "-1", is_recurring := "TRUE",
    net_payment_terms := stageNetTerms terms c }

/-- `enterprise_support`: append one synthetic row per resolved tenant of
the enterprise-support file (unchanged table when nothing resolves). -/
def enterprise_support (terms : List CompRow) (fileTenants : List String) :
    List CompRow :=
  let t2c := stageT2C terms fileTenants
  if t2c.isEmpty then terms
  else terms ++ t2c.map (fun p => mkESCompRow terms p.1 p.2)

/-- `prepaid`: tenant ids come from
`pd.to_numeric(col).fillna(0).astype(int).astype(str)`; then append one
synthetic row per resolved tenant. -/
def prepaid (terms : List CompRow) (fileCells : List (Option Int)) : List CompRow :=
  let tenants := fileCells.map (fun o => toString (o.getD 0))
  let t2c := stageT2C terms tenants
  if t2c.isEmpty then terms
  else terms ++ t2c.map (fun p => mkPrepaidCompRow terms p.1 p.2)

/-! ## Price-book ingestion (`price_book_transformation`) -/

/-- One data file of the uploaded ZIP archive, after the pandas read:
its name inside the archive, its header columns, and its body rows. -/
structure ArchiveFile where
  filename : String
  columns : List String
  body : List (List String)
deriving DecidableEq

/-- `filename.split('/')[-1]`. -/
def basenameOf (s : String) : String :=
  (s.toList.foldl (fun acc c => if c = '/' then [] else acc ++ [c]) []).asString

/-- `re.search(r'^(\d+)[_-]', basename)`: leading digits followed by an
underscore or hyphen. -/
def extractTenantNew (s : String) : Option String :=
  let l := s.toList
  let ds := l.takeWhile Char.isDigit
  if ds.isEmpty then none
  else
    match l.drop ds.length with
    | c :: _ => if c = '_' ∨ c = '-' then some ds.asString else none
    | [] => none

/-- The legacy pattern `price_by_sku_(\d+)_` anchored at the head of `l`. -/
def legacyAt (l : List Char) : Option String :=
  let pat := "price_by_sku_".toList
  if pfxMatch pat l then
    let rest := l.drop pat.length
    let ds := rest.takeWhile Char.isDigit
    if ds.isEmpty then none
    else
      match rest.drop ds.length with
      | c :: _ => if c = '_' then some ds.asString else none
      | [] => none
  else none

/-- `re.search(r'price_by_sku_(\d+)_', basename)`: leftmost occurrence. -/
def extractTenantLegacy : List Char → Option String
  | [] => none
  | c :: t =>
    match legacyAt (c :: t) with
    | some r => some r
    | none => extractTenantLegacy t

/-- Tenant-id extraction: try the new grammar first, then the legacy one. -/
def extractTenant (basename : String) : Option String :=
  match extractTenantNew basename with
  | some r => some r
  | none => extractTenantLegacy basename.toList

/-- `c` matches `\w` (regex word character). -/
def isWordChar (c : Char) : Bool :=
  c.isAlphanum || c = '_'

/-- The pattern `SFDC#\d+\.\w+$` (case-insensitive) anchored at the head of
`l` and required to consume all of it; returns the captured `SFDC#\d+` with
its original casing. -/
def contractAt (l : List Char) : Option String :=
  let s4 := l.take 4
  if (s4.map Char.toLower) = "sfdc".toList then
    match l.drop 4 with
    | '#' :: rest =>
      let ds := rest.takeWhile Char.isDigit
      if ds.isEmpty then none
      else
        match rest.drop ds.length with
        | '.' :: ext =>
          if !ext.isEmpty && ext.all isWordChar then
            some (s4 ++ '#' :: ds).asString
          else none
        | _ => none
    | _ => none
  else none

/-- `re.search(r'(SFDC#\d+)\.\w+$', basename, re.IGNORECASE)`: leftmost
start position whose match reaches the end of the string. -/
def extractContract : List Char → Option String
  | [] => none
  | c :: t =>
    match contractAt (c :: t) with
    | some r => some r
    | none => extractContract t

/-- The required rate-table columns. -/
def requiredColumns : List String :=
  ["Category", "SKU Name", "SKU Description", "Unit of Measure",
   "On-Demand Rate", "Disc", "NET RATE", "Net Terms"]

/-- `df_columns_lower[q]`: the dict comprehension keeps, for each lowercase
name, the last original column with that lowercase form. -/
def lookupLower (cols : List String) (q : String) : Option String :=
  (cols.filter (fun c => decide (lowerStr c = q))).getLast?

/-- The accepted `Net Terms` header variations, tried in order. -/
def netTermsFound (cols : List String) : Option String :=
  match lookupLower cols "net terms" with
  | some c => some c
  | none =>
    match lookupLower cols "terms" with
    | some c => some c
    | none => lookupLower cols "term"

/-- The `(matched_columns, missing_columns)` pair of the required-column
check, both in required order. -/
def columnCheck (cols : List String) : List String × List String :=
  requiredColumns.foldl (fun acc req =>
    if lowerStr req = "net terms" then
      match netTermsFound cols with
      | some c => (acc.1 ++ [c], acc.2)
      | none => (acc.1, acc.2 ++ [req])
    else
      match lookupLower cols (lowerStr req) with
      | some c => (acc.1 ++ [c], acc.2)
      | none => (acc.1, acc.2 ++ [req])) ([], [])

/-- `df.rename(columns={net_terms_found: 'Net Terms'})` when the header was
found under a variation. -/
def renameNet (matched : List String) (found : Option String) : List String :=
  match found with
  | some c => if c ≠ "Net Terms" then matched.map (fun x => if x = c then "Net Terms" else x) else matched
  | none => matched

/-- The per-file DataFrame kept by the ingester (tenant id, contract label
and the selected columns; the tag columns added afterwards are constants). -/
structure FileResult where
  tenantId : String
  contractName : String
  columns : List String
  body : List (List String)
deriving DecidableEq

/-- The error message for a file with missing required columns. -/
def missingColsError (f : ArchiveFile) : String :=
  "Error in " ++ f.filename ++ ": Missing required columns: " ++
    String.intercalate ", " (columnCheck f.columns).2

/-- The outcome of processing one archive entry. -/
inductive FileOutcome where
  | ok : FileResult → FileOutcome
  | colErr : String → FileOutcome
  | nameErr : String → FileOutcome
deriving DecidableEq

/-- Processing of one archive entry: extract the tenant id (new grammar,
then legacy), extract the optional contract label, run the required-column
check, and either reject the whole file with one error or keep it. -/
def processFile (f : ArchiveFile) : FileOutcome :=
  match extractTenant (basenameOf f.filename) with
  | none => .nameErr ("Could not extract customer_id from filename: " ++ f.filename)
  | some tid =>
    if (columnCheck f.columns).2.isEmpty then
      .ok { tenantId := tid,
            contractName := (extractContract (basenameOf f.filename).toList).getD "",
            columns := renameNet (columnCheck f.columns).1 (netTermsFound f.columns),
            body := f.body }
    else .colErr (missingColsError f)

/-- One iteration of the archive loop: append the ingested DataFrame or the
error message and continue. -/
def pbStep (acc : List FileResult × List String) (f : ArchiveFile) :
    List FileResult × List String :=
  match processFile f with
  | .ok r => (acc.1 ++ [r], acc.2)
  | .colErr e => (acc.1, acc.2 ++ [e])
  | .nameErr e => (acc.1, acc.2 ++ [e])

/-- `price_book_transformation` restricted to its per-file loop: the list of
ingested per-file DataFrames (`all_dataframes`) and the accumulated error
list.  A file rejected for missing columns appends exactly one error and no
DataFrame, and processing continues with the next file. -/
def price_book_transformation (files : List ArchiveFile) :
    List FileResult × List String :=
  files.foldl pbStep ([], [])

/-! ## General lemmas about the building blocks -/

theorem nodup_foldl_addName (l : List String) (acc : List String) (h : acc.Nodup) :
    (l.foldl addName acc).Nodup := by
  induction l generalizing acc with
  | nil => exact h
  | cons a l ih =>
    refine ih _ ?_
    unfold addName
    by_cases ha : a ∈ acc
    · simpa [ha] using h
    · simp [ha, List.nodup_append, h]

theorem dedupFS_nodup (l : List String) : (dedupFS l).Nodup :=
  nodup_foldl_addName l [] List.nodup_nil

theorem filterMap_ite {α β : Type} (l : List α) (P : α → Prop) [DecidablePred P]
    (f : α → β) :
    (l.filterMap (fun a => if P a then some (f a) else none))
      = (l.filter (fun a => decide (P a))).map f := by
  induction l with
  | nil => rfl
  | cons a l ih =>
    by_cases h : P a <;> simp [h, ih]

/-! ## C9: the upload filter is the identity under a covering usage export -/

/-- C9: filtering a composed billing-term table by a raw-usage export whose
`(tenant, SKU, contract)` triples cover all of the table's triples returns
the table unchanged, and the filter is idempotent. -/
theorem upload_filter_identity_on_superset (rows : List FiltRow) (raws : List UsageRow)
    (h : ∀ r ∈ rows, (r.tenant_id, r.name, r.contract_name) ∈ usageTriples raws) :
    tabs_billing_terms_to_upload rows (usageTriples raws) = rows
    ∧ tabs_billing_terms_to_upload
        (tabs_billing_terms_to_upload rows (usageTriples raws)) (usageTriples raws)
      = tabs_billing_terms_to_upload rows (usageTriples raws) := by
  have h1 : tabs_billing_terms_to_upload rows (usageTriples raws) = rows := by
    unfold tabs_billing_terms_to_upload
    rw [List.filter_eq_self]
    intro r hr
    simpa using h r hr
  exact ⟨h1, by rw [h1, h1]⟩

theorem upload_filter_identity_on_superset_witness :
    (∀ r ∈ [(⟨"40", "Widget", "SFDC#1", "x"⟩ : FiltRow)],
      (r.tenant_id, r.name, r.contract_name)
        ∈ usageTriples [⟨"40", "N", "Widget", "SFDC#1", some 5⟩])
    ∧ tabs_billing_terms_to_upload [(⟨"40", "Widget", "SFDC#1", "x"⟩ : FiltRow)]
        (usageTriples [⟨"40", "N", "Widget", "SFDC#1", some 5⟩])
      = [(⟨"40", "Widget", "SFDC#1", "x"⟩ : FiltRow)] :=
  ⟨by decide,
   (upload_filter_identity_on_superset
     [(⟨"40", "Widget", "SFDC#1", "x"⟩ : FiltRow)]
     [⟨"40", "N", "Widget", "SFDC#1", some 5⟩] (by decide)).1⟩

/-! ## C10: the synthetic composer stages are append-only -/

/-- C10: `enterprise_support` and `prepaid` return the input billing-term
table unchanged as a prefix and only append synthetic rows: at most one per
distinct tenant of the auxiliary file that resolves against the input
table, carrying the fixed synthetic name, amount and recurrence flag. -/
theorem composer_stages_append_only (terms : List CompRow) (fts : List String)
    (fcs : List (Option Int)) :
    enterprise_support terms fts
        = terms ++ (stageT2C terms fts).map (fun p => mkESCompRow terms p.1 p.2)
    ∧ (∀ r ∈ (stageT2C terms fts).map (fun p => mkESCompRow terms p.1 p.2),
        r.name = "Enterprise Support" ∧ r.amount_1 = "1" ∧ r.is_recurring = "FALSE")
    ∧ (stageT2C terms fts).length ≤ (dedupFS fts).length
    ∧ (dedupFS fts).Nodup
    ∧ prepaid terms fcs
        = terms ++ (stageT2C terms (fcs.map (fun o => toString (o.getD 0)))).map
            (fun p => mkPrepaidCompRow terms p.1 p.2)
    ∧ (∀ r ∈ (stageT2C terms (fcs.map (fun o => toString (o.getD 0)))).map
          (fun p => mkPrepaidCompRow terms p.1 p.2),
        r.name = "Prepaid" ∧ r.amount_1 = "-1" ∧ r.is_recurring = "TRUE")
    ∧ (stageT2C terms (fcs.map (fun o => toString (o.getD 0)))).length
        ≤ (dedupFS (fcs.map (fun o => toString (o.getD 0)))).length := by
  refine ⟨?_, ?_, ?_, dedupFS_nodup fts, ?_, ?_, ?_⟩
  · unfold enterprise_support
    by_cases h : (stageT2C terms fts).isEmpty
    · rw [if_pos h, List.isEmpty_iff.mp h]
      simp
    · rw [if_neg h]
  · intro r hr
    obtain ⟨p, _, rfl⟩ := List.mem_map.mp hr
    exact ⟨rfl, rfl, rfl⟩
  · exact List.length_filterMap_le _ _
  · unfold prepaid
    by_cases h : (stageT2C terms (fcs.map (fun o => toString (o.getD 0)))).isEmpty
    · rw [if_pos h, List.isEmpty_iff.mp h]
      simp
    · rw [if_neg h]
  · intro r hr
    obtain ⟨p, _, rfl⟩ := List.mem_map.mp hr
    exact ⟨rfl, rfl, rfl⟩
  · exact List.length_filterMap_le _ _

/-! ## C3 (corrected): the usage aggregation is a binary64 running sum,
not an exact or order-invariant one -/

/-- Registry of the aggregation counterexample. -/
def c3Reg : List (String × String) := [("40", "c")]

/-- Three rows of one aggregation key whose meters are `1e16`, `1`, `1`. -/
def c3RowsA : List UsageRow :=
  [⟨"40", "A", "S", "K", some 10000000000000000⟩,
   ⟨"40", "A", "S", "K", some 1⟩,
   ⟨"40", "A", "S", "K", some 1⟩]

/-- The same three rows reordered to `1`, `1`, `1e16`. -/
def c3RowsB : List UsageRow :=
  [⟨"40", "A", "S", "K", some 1⟩,
   ⟨"40", "A", "S", "K", some 1⟩,
   ⟨"40", "A", "S", "K", some 10000000000000000⟩]

/-- C3 counterexample: for meters `[1e16, 1, 1]` under one key, the
binary64 accumulation of the code yields `1e16` (each `+ 1` is absorbed by
round-to-nearest-even at ulp 2), which is neither the exact sum
`1e16 + 2` nor equal to the value `1.0000000000000002e16` obtained after
reordering the rows to `[1, 1, 1e16]` — refuting both the exact-sum and
the reorder-invariance halves of the claim at a concrete input. -/
theorem usage_aggregation_not_exact_counterexample :
    c3RowsA.Perm c3RowsB
    ∧ valueAt (usage_lookup (resolveRows c3Reg c3RowsA)) ("c", "S", "K", "A")
        ≠ (((resolveRows c3Reg c3RowsA).filter
            (fun r => decide (keyOf r = ("c", "S", "K", "A")))).map
          (fun r => r.meter.getD 0)).sum
    ∧ valueAt (usage_lookup (resolveRows c3Reg c3RowsA)) ("c", "S", "K", "A")
        ≠ valueAt (usage_lookup (resolveRows c3Reg c3RowsB)) ("c", "S", "K", "A") := by
  refine ⟨?_, ?_, ?_⟩ <;> decide

/-- C3 (amended): the aggregation map sends every
`(customer_id, SKU, contract, tenant name)` key to the left-to-right
binary64 float accumulation of the meter values of exactly the resolved
rows sharing that key — a running sum over every matching row, never the
last value and never an average — subject to IEEE-754 rounding at each
step, and therefore not in general the exact sum nor invariant under
reordering of the input rows. -/
theorem usage_aggregation_float_accumulation
    (reg : List (String × String)) (rows : List UsageRow)
    (k : String × String × String × String) :
    valueAt (usage_lookup (resolveRows reg rows)) k
      = (((resolveRows reg rows).filter (fun r => decide (keyOf r = k))).map
          (fun r => r.meter.getD 0)).foldl flAdd 0 := by
  unfold usage_lookup
  rw [valueAt_foldl_updAddFl, List.filter_map, List.map_map]
  rfl

/-! ## C8: the consumption report -/

theorem consumption_pairs (l : List UsageEvent) (terms : List BTRow) (k : String × String) :
    (((l.filterMap (fun e => (lookupA (customer_to_info terms) e.customer_id).map
        (fun info => (info, valueAt (amount_lookup terms) (e.customer_id, e.event_type_name) * e.value)))).filter
      (fun p => decide (p.1 = k))).map Prod.snd)
    = ((l.filter (fun e => decide (lookupA (customer_to_info terms) e.customer_id = some k))).map
        (fun e => valueAt (amount_lookup terms) (e.customer_id, e.event_type_name) * e.value)) := by
  induction l with
  | nil => rfl
  | cons e l ih =>
    cases hci : lookupA (customer_to_info terms) e.customer_id with
    | none => simp [hci, ih]
    | some i =>
      by_cases hik : i = k
      · subst hik
        simp [hci, ih]
      · simp [hci, hik, ih]

/-- C8: the consumption report maps each `(tenant_id, contract_name)` key to
the sum of `amount_1 × meter_value` over exactly the non-Prepaid usage rows
whose customer is associated with that key; Enterprise Support rows are
included, only Prepaid rows are excluded. -/
theorem consumption_report_grouped_products (events : List UsageEvent)
    (terms : List BTRow) (k : String × String) :
    valueAt (generate_commit_consumption_data events terms) k
      = ((events.filter (fun e => !(containsPreCI e.event_type_name)
            && decide (lookupA (customer_to_info terms) e.customer_id = some k))).map
          (fun e => valueAt (amount_lookup terms) (e.customer_id, e.event_type_name) * e.value)).sum := by
  unfold generate_commit_consumption_data
  rw [valueAt_foldAdd, consumption_pairs, List.filter_filter]
  congr 1
  congr 1
  apply List.filter_congr
  intro a _
  exact Bool.and_comm _ _

/-! ## C5: a file with missing columns yields no rows, one error, and does
not disturb the rest of the archive -/

theorem pb_foldl_shift (files : List ArchiveFile) (acc : List FileResult × List String) :
    files.foldl pbStep acc
      = (acc.1 ++ (price_book_transformation files).1,
         acc.2 ++ (price_book_transformation files).2) := by
  induction files generalizing acc with
  | nil => simp [price_book_transformation]
  | cons f fs ih =>
    rw [List.foldl_cons, ih]
    conv_rhs => rw [price_book_transformation, List.foldl_cons, ih]
    cases h : processFile f <;> simp [pbStep, h]

theorem price_book_transformation_append (xs ys : List ArchiveFile) :
    price_book_transformation (xs ++ ys)
      = ((price_book_transformation xs).1 ++ (price_book_transformation ys).1,
         (price_book_transformation xs).2 ++ (price_book_transformation ys).2) := by
  rw [price_book_transformation, List.foldl_append, pb_foldl_shift]
  rfl

/-- C5: if a rate-table file of the archive has a parsable tenant filename
but is missing at least one required column, the ingested DataFrames are
exactly those of the archive without that file (the file contributes zero
rows and every other file is ingested normally), and the error list gains
exactly one descriptive error for it, in position. -/
theorem price_book_missing_column_isolated (pre post : List ArchiveFile)
    (f : ArchiveFile)
    (hname : (extractTenant (basenameOf f.filename)).isSome)
    (hmiss : (columnCheck f.columns).2 ≠ []) :
    (price_book_transformation (pre ++ f :: post)).1
        = (price_book_transformation (pre ++ post)).1
    ∧ (price_book_transformation (pre ++ f :: post)).2
        = (price_book_transformation pre).2 ++
            missingColsError f :: (price_book_transformation post).2 := by
  have hout : processFile f = .colErr (missingColsError f) := by
    unfold processFile
    obtain ⟨tid, htid⟩ := Option.isSome_iff_exists.mp hname
    rw [htid]
    have hempty : (columnCheck f.columns).2.isEmpty = false := by
      cases hh : (columnCheck f.columns).2 with
      | nil => exact absurd hh hmiss
      | cons a l => rfl
    simp [hempty]
  have hf : price_book_transformation (f :: post)
      = ((price_book_transformation post).1,
         missingColsError f :: (price_book_transformation post).2) := by
    rw [price_book_transformation, List.foldl_cons, pb_foldl_shift]
    simp [pbStep, hout]
  refine ⟨?_, ?_⟩ <;>
    simp [price_book_transformation_append, hf]

theorem price_book_missing_column_isolated_witness :
    ((extractTenant (basenameOf "40_Koch_SFDC#00000190.csv")).isSome
      ∧ (columnCheck ["Category", "SKU Name", "SKU Description", "Unit of Measure",
          "On-Demand Rate", "NET RATE", "Terms"]).2 ≠ [])
    ∧ (price_book_transformation
        [⟨"41_Faz_SFDC#2.csv",
          ["Category", "SKU Name", "SKU Description", "Unit of Measure",
           "On-Demand Rate", "Disc", "NET RATE", "Terms"], [["b"]]⟩,
         ⟨"40_Koch_SFDC#00000190.csv",
          ["Category", "SKU Name", "SKU Description", "Unit of Measure",
           "On-Demand Rate", "NET RATE", "Terms"], [["a"]]⟩]).1
      = (price_book_transformation
          [⟨"41_Faz_SFDC#2.csv",
            ["Category", "SKU Name", "SKU Description", "Unit of Measure",
             "On-Demand Rate", "Disc", "NET RATE", "Terms"], [["b"]]⟩]).1 := by
  refine ⟨⟨by decide, by decide⟩, ?_⟩
  have h := price_book_missing_column_isolated
    [⟨"41_Faz_SFDC#2.csv",
      ["Category", "SKU Name", "SKU Description", "Unit of Measure",
       "On-Demand Rate", "Disc", "NET RATE", "Terms"], [["b"]]⟩]
    []
    ⟨"40_Koch_SFDC#00000190.csv",
     ["Category", "SKU Name", "SKU Description", "Unit of Measure",
      "On-Demand Rate", "NET RATE", "Terms"], [["a"]]⟩
    (by decide) (by decide)
  simpa using h.1

/-! ## C6: invoice numbering is first-seen sequential and deterministic -/

theorem lookupA_updNames (m : List (String × List String)) (t0 n : String) (t : String) :
    lookupA (updNames m t0 n) t =
      if t = t0 then some (addName ((lookupA m t0).getD []) n) else lookupA m t := by
  induction m with
  | nil => by_cases h : t = t0 <;> simp [updNames, lookupA, addName, h]
  | cons p m ih =>
    obtain ⟨a, ns⟩ := p
    by_cases h0 : t0 = a
    · subst h0
      by_cases ht : t = t0 <;> simp [updNames, lookupA, ht]
    · by_cases ht : t = a
      · subst ht
        simp [updNames, lookupA, h0, Ne.symm h0]
      · simp [updNames, lookupA, h0, ht, ih]

theorem lookupA_foldl_updNames (rs : List RRow) (m : List (String × List String))
    (t : String) :
    lookupA (rs.foldl (fun m r => updNames m r.tenantId r.tenantName) m) t =
      (if (lookupA m t).isSome ∨ (rs.filter (fun r => decide (r.tenantId = t))) ≠ [] then
        some (((rs.filter (fun r => decide (r.tenantId = t))).map
          (fun r => r.tenantName)).foldl addName ((lookupA m t).getD []))
      else none) := by
  induction rs generalizing m with
  | nil => cases h : lookupA m t <;> simp [h]
  | cons r rs ih =>
    by_cases hr : r.tenantId = t
    · subst hr
      rw [List.foldl_cons, ih]
      rw [lookupA_updNames, if_pos (rfl : r.tenantId = r.tenantId)]
      have hf : (r :: rs).filter (fun x => decide (x.tenantId = r.tenantId))
          = r :: rs.filter (fun x => decide (x.tenantId = r.tenantId)) := by
        rw [List.filter_cons]
        simp
      rw [hf]
      simp
    · have hneg : ¬ t = r.tenantId := fun h => hr h.symm
      rw [List.foldl_cons, ih]
      rw [lookupA_updNames, if_neg hneg]
      have hf : (r :: rs).filter (fun x => decide (x.tenantId = t))
          = rs.filter (fun x => decide (x.tenantId = t)) := by
        rw [List.filter_cons]
        simp [hr]
      rw [hf]

theorem lookupA_tenant_names (rs : List RRow) (t : String)
    (h : (rs.filter (fun r => decide (r.tenantId = t))) ≠ []) :
    lookupA (tenant_id_to_tenant_names rs) t = some (namesFor rs t) := by
  unfold tenant_id_to_tenant_names namesFor
  rw [lookupA_foldl_updNames]
  simp [lookupA, h]

theorem lookupA_block_ne (t t2 n : String) (ns : List String) (j : ℕ)
    (h : ¬ t2 = t) :
    lookupA ((List.enumFrom j ns).map (fun q => ((t, q.2), q.1 + 1))) (t2, n) = none := by
  induction ns generalizing j with
  | nil => rfl
  | cons a ns ih =>
    simp [List.enumFrom, lookupA, h, ih]

theorem lookupA_block_get (t : String) (ns : List String) (hnd : ns.Nodup)
    (i : ℕ) (hi : i < ns.length) (j : ℕ) :
    lookupA ((List.enumFrom j ns).map (fun q => ((t, q.2), q.1 + 1)))
        (t, ns.get ⟨i, hi⟩) = some (j + i + 1) := by
  induction ns generalizing i j with
  | nil => exact absurd hi (by simp)
  | cons a ns ih =>
    obtain ⟨ha, hnd2⟩ := List.nodup_cons.mp hnd
    cases i with
    | zero => simp [List.enumFrom, lookupA]
    | succ i =>
      have hi2 : i < ns.length := by simpa using hi
      have hmem : ns.get ⟨i, hi2⟩ ∈ ns := List.get_mem ns i hi2
      have hne : ns.get ⟨i, hi2⟩ ≠ a := fun hc => ha (hc ▸ hmem)
      have hrec := ih hnd2 i hi2 (j + 1)
      simp only [List.enumFrom, List.map_cons, lookupA, List.get_cons_succ]
      rw [if_neg (by simpa using hne)]
      rw [hrec]
      congr 1
      omega

theorem lookupA_flatMap_blocks (ms : List (String × List String)) (t : String)
    (ns : List String) (hl : lookupA ms t = some ns) (hnd : ns.Nodup)
    (i : ℕ) (hi : i < ns.length) :
    lookupA (ms.flatMap (fun p => p.2.enum.map (fun q => ((p.1, q.2), q.1 + 1))))
        (t, ns.get ⟨i, hi⟩) = some (i + 1) := by
  induction ms with
  | nil => simp [lookupA] at hl
  | cons p ms ih =>
    obtain ⟨t1, ns1⟩ := p
    have hsplit : ((t1, ns1) :: ms).flatMap
        (fun p => p.2.enum.map (fun q => ((p.1, q.2), q.1 + 1)))
      = ns1.enum.map (fun q => ((t1, q.2), q.1 + 1)) ++
          ms.flatMap (fun p => p.2.enum.map (fun q => ((p.1, q.2), q.1 + 1))) := rfl
    rw [hsplit, lookupA_append]
    by_cases ht : t = t1
    · subst ht
      have hns : ns1 = ns := by simpa [lookupA] using hl
      subst hns
      have hblock := lookupA_block_get t ns1 hnd i hi 0
      have henum : ns1.enum = List.enumFrom 0 ns1 := rfl
      rw [henum, hblock]
      simp
    · have hblock := lookupA_block_ne t1 t (ns.get ⟨i, hi⟩) ns1 0 ht
      have henum : ns1.enum = List.enumFrom 0 ns1 := rfl
      rw [henum, hblock]
      have hl2 : lookupA ms t = some ns := by
        simpa [lookupA, ht] using hl
      simpa using ih hl2

/-- C6: within each tenant id, the invoice-numbering map assigns the
sequential integers 1, 2, ... to that tenant's distinct tenant names in
order of first appearance in the raw usage rows, and reconciliation of the
same input is deterministic. -/
theorem invoice_numbering_first_seen_sequential (reg : List (String × String))
    (rows : List UsageRow) (t : String) (i : ℕ)
    (hi : i < (namesFor (resolveRows reg rows) t).length) :
    lookupA (invoice_mapping (resolveRows reg rows))
        (t, (namesFor (resolveRows reg rows) t).get ⟨i, hi⟩) = some (i + 1)
    ∧ (namesFor (resolveRows reg rows) t).Nodup
    ∧ ∀ terms esf date,
        create_tabs_ready_usage rows terms esf reg date
          = create_tabs_ready_usage rows terms esf reg date := by
  have hnd : (namesFor (resolveRows reg rows) t).Nodup :=
    nodup_foldl_addName _ _ List.nodup_nil
  refine ⟨?_, hnd, fun _ _ _ => rfl⟩
  have hne : ((resolveRows reg rows).filter (fun r => decide (r.tenantId = t))) ≠ [] := by
    intro hempty
    unfold namesFor at hi
    rw [hempty] at hi
    simp at hi
  have hsome := lookupA_tenant_names _ _ hne
  unfold invoice_mapping
  exact lookupA_flatMap_blocks _ _ _ hsome hnd i hi

theorem invoice_numbering_first_seen_sequential_witness :
    (1 < (namesFor (resolveRows [("40", "c")]
        [⟨"40", "A", "S", "K", some 1⟩, ⟨"40", "B", "S", "K", some 2⟩]) "40").length)
    ∧ lookupA (invoice_mapping (resolveRows [("40", "c")]
        [⟨"40", "A", "S", "K", some 1⟩, ⟨"40", "B", "S", "K", some 2⟩]))
        ("40", (namesFor (resolveRows [("40", "c")]
          [⟨"40", "A", "S", "K", some 1⟩, ⟨"40", "B", "S", "K", some 2⟩]) "40").get
            ⟨1, by decide⟩) = some 2 :=
  ⟨by decide,
   (invoice_numbering_first_seen_sequential [("40", "c")]
     [⟨"40", "A", "S", "K", some 1⟩, ⟨"40", "B", "S", "K", some 2⟩] "40" 1 (by decide)).1⟩

/-! ## Properties of the classification and of the regular output rows -/

theorem classify_valid_clean_aux (terms : List BTRow) (acc : Classified)
    (h : ∀ x ∈ acc.valid, containsES x.2.1 = false ∧ containsPre x.2.1 = false) :
    ∀ x ∈ (terms.foldl classifyStep acc).valid,
      containsES x.2.1 = false ∧ containsPre x.2.1 = false := by
  induction terms generalizing acc with
  | nil => exact h
  | cons r ts ih =>
    rw [List.foldl_cons]
    refine ih _ ?_
    intro x hx
    unfold classifyStep at hx
    by_cases hskip : r.customer_id = "" ∨ r.name = "" ∨ r.customer_id = "nan" ∨ r.name = "nan"
    · rw [if_pos hskip] at hx
      exact h x hx
    · rw [if_neg hskip] at hx
      by_cases hes : containsES r.name
      · simp only [hes, if_pos] at hx
        exact h x hx
      · by_cases hpre : containsPre r.name
        · simp only [hes, hpre] at hx
          simp at hx
          exact h x hx
        · simp only [hes, hpre] at hx
          simp at hx
          rcases hx with hx | hx
          · exact h x hx
          · subst hx
            exact ⟨Bool.not_eq_true _ ▸ (by simpa using hes),
                   Bool.not_eq_true _ ▸ (by simpa using hpre)⟩

theorem classify_valid_clean (terms : List BTRow)
    (x : String × String × String) (hx : x ∈ (classify terms).valid) :
    containsES x.2.1 = false ∧ containsPre x.2.1 = false :=
  classify_valid_clean_aux terms ⟨[], [], [], []⟩ (by intro y hy; simp at hy) x hx

theorem regularEvents_name_clean (terms : List BTRow)
    (lk : List ((String × String × String × String) × ℚ))
    (inv : List ((String × String) × Nat)) (rev : List (String × String))
    (date : String) :
    ∀ e ∈ regularEvents (classify terms) lk inv rev date,
      containsES e.event_type_name = false ∧ containsPre e.event_type_name = false := by
  intro e he
  unfold regularEvents at he
  obtain ⟨entry, hentry, hsome⟩ := List.mem_filterMap.mp he
  by_cases hP : (entry.1.1, entry.1.2.1, entry.1.2.2.1) ∈ (classify terms).valid
  · rw [if_pos hP] at hsome
    have hclean := classify_valid_clean terms _ hP
    cases hsome
    simpa using hclean
  · rw [if_neg hP] at hsome
    cases hsome

theorem clean_ne_ES (s : String) (h : containsES s = false) :
    s ≠ "Enterprise Support" := by
  intro hc
  rw [hc] at h
  exact absurd h (by decide)

/-- In the Enterprise Support computation, the exclusion of rows named
exactly `Enterprise Support` drops nothing: at that point `output_df`
contains only rows born from regular billing terms, whose SKU names never
contain the substring. -/
theorem esFilter_collapse (regular : List UsageEvent) (c : String)
    (hclean : ∀ e ∈ regular, containsES e.event_type_name = false) :
    regular.filter (fun e =>
        decide (e.customer_id = c ∧ e.event_type_name ≠ "Enterprise Support"))
      = regular.filter (fun e => decide (e.customer_id = c)) := by
  apply List.filter_congr
  intro e he
  have hne := clean_ne_ES _ (hclean e he)
  simp [hne]

theorem regularPart_of_terms_nil (raw : List UsageRow) (reg : List (String × String))
    (date : String) :
    regularPart raw ([] : List BTRow) reg date = [] := by
  unfold regularPart regularEvents classify
  simp

/-- In the non-degenerate branch the output is the concatenation of the
regular rows, the Enterprise Support rows and the Prepaid rows, in order. -/
theorem create_eq_concat (raw : List UsageRow) (terms : List BTRow)
    (esf : List ESRow) (reg : List (String × String)) (date : String)
    (hterms : terms.isEmpty = false)
    (hreg : (regularPart raw terms reg date).isEmpty = false) :
    create_tabs_ready_usage raw terms esf reg date
      = regularPart raw terms reg date ++ esPart raw terms esf reg date
          ++ prepaidPart raw terms esf reg date := by
  unfold create_tabs_ready_usage
  simp [hterms, hreg]

/-! ## C1: the Enterprise Support value -/

/-- C1: for a synthetic Enterprise Support billing term whose customer
carries a normalised percentage (divide by 100 when the raw value exceeds
1), the emitted Enterprise Support row's value is the half-up 2-decimal
rounding of the exact sum `Σ value × amount_1` over that customer's
regular usage rows, multiplied by the normalised percentage.  In
particular the rows `[(SKU_A, 100, 2), (SKU_B, 50, 1)]` with percentage 10
give `round_half_up(250 × 0.10, 2) = 25.00` (see the witness). -/
theorem enterprise_support_value_formula
    (raw : List UsageRow) (terms : List BTRow) (esf : List ESRow)
    (reg : List (String × String)) (date : String) (t : SynthTerm)
    (ht : t ∈ (classify terms).esTerms) (p : ℚ) (hp : 0 ≤ p)
    (hpct : lookupA (customer_to_enterprise_pct esf reg) t.customer_id
        = some (if 1 < p then p / 100 else p))
    (hreg : regularPart raw terms reg date ≠ []) :
    mkESEvent (regularPart raw terms reg date) terms (c2iPart raw terms reg)
        (customer_to_enterprise_pct esf reg) date t
      ∈ create_tabs_ready_usage raw terms esf reg date
    ∧ (mkESEvent (regularPart raw terms reg date) terms (c2iPart raw terms reg)
        (customer_to_enterprise_pct esf reg) date t).value
      = roundHalfUp2
          ((((regularPart raw terms reg date).filter
              (fun e => decide (e.customer_id = t.customer_id))).map
            (fun e => e.value * amountFor terms t.customer_id e.event_type_name)).sum
            * (if 1 < p then p / 100 else p)) := by
  have hterms : terms.isEmpty = false := by
    cases hq : terms with
    | nil =>
      subst hq
      simp [classify] at ht
    | cons a l => rfl
  have hregE : (regularPart raw terms reg date).isEmpty = false := by
    cases hq : regularPart raw terms reg date with
    | nil => exact absurd hq hreg
    | cons a l => rfl
  constructor
  · rw [create_eq_concat raw terms esf reg date hterms hregE]
    refine List.mem_append.mpr (Or.inl (List.mem_append.mpr (Or.inr ?_)))
    exact List.mem_map_of_mem _ ht
  · have hclean : ∀ e ∈ regularPart raw terms reg date,
        containsES e.event_type_name = false :=
      fun e he => (regularEvents_name_clean terms _ _ _ date e he).1
    have hcollapse := esFilter_collapse (regularPart raw terms reg date)
      t.customer_id hclean
    have hpv : 0 ≤ (if 1 < p then p / 100 else p) := by
      split_ifs with h
      · exact div_nonneg hp (by norm_num)
      · exact hp
    show esValue (regularPart raw terms reg date) terms
        ((lookupA (customer_to_enterprise_pct esf reg) t.customer_id).getD 0)
        t.customer_id = _
    rw [hpct]
    show esValue (regularPart raw terms reg date) terms
        (if 1 < p then p / 100 else p) t.customer_id = _
    unfold esValue
    rw [hcollapse]
    by_cases hpos : 0 < (if 1 < p then p / 100 else p)
    · rw [if_pos hpos]
      by_cases hemp : ((regularPart raw terms reg date).filter
          (fun e => decide (e.customer_id = t.customer_id))).isEmpty
      · rw [if_pos hemp]
        rw [List.isEmpty_iff.mp hemp]
        simp [roundHalfUp2_zero]
      · rw [if_neg hemp]
    · rw [if_neg hpos]
      have hzero : (if 1 < p then p / 100 else p) = 0 :=
        le_antisymm (not_lt.mp hpos) hpv
      rw [hzero]
      simp [roundHalfUp2_zero]

/-! ## C2: the Prepaid value -/

/-- C2: the Prepaid rows are computed only after the Enterprise Support
rows have been appended to `output_df` (the output is regular rows, then
Enterprise Support rows, then Prepaid rows), and each Prepaid row's value
is the half-up 2-decimal rounding of `Σ value × amount_1` over all of that
customer's already-emitted rows — Enterprise Support included, the Prepaid
row itself excluded since it is not yet emitted. -/
theorem prepaid_value_formula
    (raw : List UsageRow) (terms : List BTRow) (esf : List ESRow)
    (reg : List (String × String)) (date : String) (t : SynthTerm)
    (ht : t ∈ (classify terms).pTerms)
    (hreg : regularPart raw terms reg date ≠ []) :
    create_tabs_ready_usage raw terms esf reg date
        = regularPart raw terms reg date ++ esPart raw terms esf reg date
            ++ prepaidPart raw terms esf reg date
    ∧ mkPrepaidEvent (regularPart raw terms reg date ++ esPart raw terms esf reg date)
        terms (c2iPart raw terms reg) date t
      ∈ create_tabs_ready_usage raw terms esf reg date
    ∧ (mkPrepaidEvent (regularPart raw terms reg date ++ esPart raw terms esf reg date)
        terms (c2iPart raw terms reg) date t).value
      = roundHalfUp2
          ((((regularPart raw terms reg date ++ esPart raw terms esf reg date).filter
              (fun e => decide (e.customer_id = t.customer_id))).map
            (fun e => e.value * amountFor terms t.customer_id e.event_type_name)).sum) := by
  have hterms : terms.isEmpty = false := by
    cases hq : terms with
    | nil =>
      subst hq
      simp [classify] at ht
    | cons a l => rfl
  have hregE : (regularPart raw terms reg date).isEmpty = false := by
    cases hq : regularPart raw terms reg date with
    | nil => exact absurd hq hreg
    | cons a l => rfl
  have hconcat := create_eq_concat raw terms esf reg date hterms hregE
  refine ⟨hconcat, ?_, ?_⟩
  · rw [hconcat]
    refine List.mem_append.mpr (Or.inr ?_)
    exact List.mem_map_of_mem _ ht
  · show prepaidValue
        (regularPart raw terms reg date ++ esPart raw terms esf reg date)
        terms t.customer_id = _
    unfold prepaidValue
    by_cases hemp : ((regularPart raw terms reg date ++ esPart raw terms esf reg date).filter
        (fun e => decide (e.customer_id = t.customer_id))).isEmpty
    · rw [if_pos hemp]
      rw [List.isEmpty_iff.mp hemp]
      simp [roundHalfUp2_zero]
    · rw [if_neg hemp]

/-! ## C7 (corrected): an Enterprise Support row is always emitted -/

/-- The registry snapshot of the counterexample run. -/
def exReg : List (String × String) := [("40", "cust-1"), ("41", "cust-2")]

/-- The raw usage of the counterexample run: only customer `cust-2`
reports usage. -/
def exRaw : List UsageRow := [⟨"41", "N", "Widget", "K", some 5⟩]

/-- The billing terms of the counterexample run: a regular term for
`cust-2` and an Enterprise Support term for `cust-1`. -/
def exTerms : List BTRow :=
  [⟨"cust-2", "41", "Widget", "K", "ev-w", some 1⟩,
   ⟨"cust-1", "40", "Enterprise Support", "", "ev-es", some 1⟩]

/-- C7 counterexample: customer `cust-1` holds an Enterprise Support
billing term but has no emitted usage rows, yet the output contains an
Enterprise Support UsageEvent for `cust-1` (with value 0) — refuting the
claim that no Enterprise Support event is emitted for such a customer. -/
theorem es_event_emitted_without_usage_counterexample :
    (∀ e ∈ regularPart exRaw exTerms exReg "2025-01-01", e.customer_id ≠ "cust-1")
    ∧ (⟨"cust-1", "ev-es", "Enterprise Support", "2025-01-01", 0, "", 1⟩ : UsageEvent)
        ∈ create_tabs_ready_usage exRaw exTerms [] exReg "2025-01-01" :=
  ⟨by decide, by decide⟩

/-- C7 (amended): an Enterprise Support UsageEvent is emitted for every
synthetic Enterprise Support billing term, even when its customer has no
emitted usage rows (its value is then 0), provided the run emitted at
least one regular usage row; its invoice number is taken from the
contract-to-invoice map for that customer's contract, defaulting to 1. -/
theorem es_event_always_emitted
    (raw : List UsageRow) (terms : List BTRow) (esf : List ESRow)
    (reg : List (String × String)) (date : String) (t : SynthTerm)
    (ht : t ∈ (classify terms).esTerms)
    (hreg : regularPart raw terms reg date ≠ []) :
    mkESEvent (regularPart raw terms reg date) terms (c2iPart raw terms reg)
        (customer_to_enterprise_pct esf reg) date t
      ∈ create_tabs_ready_usage raw terms esf reg date
    ∧ (mkESEvent (regularPart raw terms reg date) terms (c2iPart raw terms reg)
        (customer_to_enterprise_pct esf reg) date t).invoice
      = (lookupA (c2iPart raw terms reg) (t.customer_id, t.contract_name)).getD 1
    ∧ (((regularPart raw terms reg date).filter
          (fun e => decide (e.customer_id = t.customer_id))) = [] →
        (mkESEvent (regularPart raw terms reg date) terms (c2iPart raw terms reg)
          (customer_to_enterprise_pct esf reg) date t).value = 0) := by
  have hterms : terms.isEmpty = false := by
    cases hq : terms with
    | nil =>
      subst hq
      simp [classify] at ht
    | cons a l => rfl
  have hregE : (regularPart raw terms reg date).isEmpty = false := by
    cases hq : regularPart raw terms reg date with
    | nil => exact absurd hq hreg
    | cons a l => rfl
  refine ⟨?_, rfl, ?_⟩
  · rw [create_eq_concat raw terms esf reg date hterms hregE]
    refine List.mem_append.mpr (Or.inl (List.mem_append.mpr (Or.inr ?_)))
    exact List.mem_map_of_mem _ ht
  · intro hempty
    have hclean : ∀ e ∈ regularPart raw terms reg date,
        containsES e.event_type_name = false :=
      fun e he => (regularEvents_name_clean terms _ _ _ date e he).1
    have hcollapse := esFilter_collapse (regularPart raw terms reg date)
      t.customer_id hclean
    show esValue (regularPart raw terms reg date) terms
        ((lookupA (customer_to_enterprise_pct esf reg) t.customer_id).getD 0)
        t.customer_id = 0
    unfold esValue
    rw [hcollapse, hempty]
    by_cases hpos : 0 < (lookupA (customer_to_enterprise_pct esf reg) t.customer_id).getD 0
    · rw [if_pos hpos]
      simp
    · rw [if_neg hpos]

/-! ## C4: one regular event per valid aggregated key; synthetics come only
from billing terms -/

/-- C4: the reconciler output decomposes into the regular rows followed by
synthetic rows.  The regular rows are exactly one per `usage_lookup` entry
whose `(customer_id, SKU, contract)` projection matches a regular billing
term — entries with no matching term produce nothing (and the function
returns no error for them) — and no regular row carries an Enterprise
Support or Prepaid name, while every Enterprise Support / Prepaid row is
synthesised from a billing term, never read from raw usage. -/
theorem one_event_per_valid_key_synthetics_from_terms
    (raw : List UsageRow) (terms : List BTRow) (esf : List ESRow)
    (reg : List (String × String)) (date : String) :
    ∃ esE ppE,
      create_tabs_ready_usage raw terms esf reg date
          = regularPart raw terms reg date ++ esE ++ ppE
      ∧ regularPart raw terms reg date
          = ((usage_lookup (resolveRows reg raw)).filter
              (fun e => decide ((e.1.1, e.1.2.1, e.1.2.2.1) ∈ (classify terms).valid))).map
            (fun e =>
              { customer_id := e.1.1,
                event_type_id :=
                  (lookupA (classify terms).emap (e.1.1, e.1.2.1, e.1.2.2.1)).getD "",
                event_type_name := e.1.2.1,
                dt := date,
                value := e.2,
                differentiator := "",
                invoice := (lookupA (invoice_mapping (resolveRows reg raw))
                  ((lookupA (customer_id_to_tenant_id reg) e.1.1).getD "", e.1.2.2.2)).getD 1 })
      ∧ (∀ e ∈ regularPart raw terms reg date,
          containsES e.event_type_name = false ∧ containsPre e.event_type_name = false)
      ∧ (∀ e ∈ esE, ∃ t ∈ (classify terms).esTerms,
          e = mkESEvent (regularPart raw terms reg date) terms (c2iPart raw terms reg)
                (customer_to_enterprise_pct esf reg) date t)
      ∧ (∀ e ∈ ppE, ∃ t ∈ (classify terms).pTerms,
          e = mkPrepaidEvent
                (regularPart raw terms reg date ++ esPart raw terms esf reg date)
                terms (c2iPart raw terms reg) date t) := by
  have h2 : regularPart raw terms reg date
      = ((usage_lookup (resolveRows reg raw)).filter
          (fun e => decide ((e.1.1, e.1.2.1, e.1.2.2.1) ∈ (classify terms).valid))).map
        (fun e =>
          { customer_id := e.1.1,
            event_type_id :=
              (lookupA (classify terms).emap (e.1.1, e.1.2.1, e.1.2.2.1)).getD "",
            event_type_name := e.1.2.1,
            dt := date,
            value := e.2,
            differentiator := "",
            invoice := (lookupA (invoice_mapping (resolveRows reg raw))
              ((lookupA (customer_id_to_tenant_id reg) e.1.1).getD "", e.1.2.2.2)).getD 1 }) :=
    filterMap_ite _ _ _
  have h3 : ∀ e ∈ regularPart raw terms reg date,
      containsES e.event_type_name = false ∧ containsPre e.event_type_name = false :=
    fun e he => regularEvents_name_clean terms _ _ _ date e he
  by_cases hterms : terms.isEmpty
  · refine ⟨[], [], ?_, h2, h3, by simp, by simp⟩
    have hnil : terms = [] := List.isEmpty_iff.mp hterms
    subst hnil
    rw [regularPart_of_terms_nil]
    simp [create_tabs_ready_usage]
  · by_cases hC1 : (regularPart raw terms reg date).isEmpty
        ∧ (classify terms).esTerms.any
          (fun t => decide (0 <
            (lookupA (customer_to_enterprise_pct esf reg) t.customer_id).getD 0))
    · refine ⟨[], [], ?_, h2, h3, by simp, by simp⟩
      rw [List.isEmpty_iff.mp hC1.1]
      unfold create_tabs_ready_usage
      rw [if_neg hterms, if_pos hC1]
      rfl
    · by_cases hC2 : (regularPart raw terms reg date).isEmpty
          ∧ (classify terms).esTerms.isEmpty
          ∧ ¬ (classify terms).pTerms.isEmpty
      · refine ⟨[], [], ?_, h2, h3, by simp, by simp⟩
        rw [List.isEmpty_iff.mp hC2.1]
        unfold create_tabs_ready_usage
        rw [if_neg hterms, if_neg hC1, if_pos hC2]
        rfl
      · refine ⟨esPart raw terms esf reg date, prepaidPart raw terms esf reg date,
          ?_, h2, h3, ?_, ?_⟩
        · unfold create_tabs_ready_usage
          rw [if_neg hterms, if_neg hC1, if_neg hC2]
        · intro e he
          obtain ⟨t, hts, rfl⟩ := List.mem_map.mp he
          exact ⟨t, hts, rfl⟩
        · intro e he
          obtain ⟨t, hts, rfl⟩ := List.mem_map.mp he
          exact ⟨t, hts, rfl⟩

/-! ## Concrete run used by the witnesses (the worked example of the spec) -/

/-- Registry: tenant `40` is customer `c-1`. -/
def w1Reg : List (String × String) := [("40", "c-1")]

/-- Raw usage: `SKU_A` metered 100 and `SKU_B` metered 50. -/
def w1Raw : List UsageRow :=
  [⟨"40", "Acme", "SKU_A", "K1", some 100⟩, ⟨"40", "Acme", "SKU_B", "K1", some 50⟩]

/-- Billing terms: `SKU_A` at amount 2, `SKU_B` at amount 1, plus the
synthetic Enterprise Support (amount 1) and Prepaid (amount −1) terms. -/
def wTerms : List BTRow :=
  [⟨"c-1", "40", "SKU_A", "K1", "evA", some 2⟩,
   ⟨"c-1", "40", "SKU_B", "K1", "evB", some 1⟩,
   ⟨"c-1", "40", "Enterprise Support", "K1", "evES", some 1⟩,
   ⟨"c-1", "40", "Prepaid", "K1", "evP", some (-1)⟩]

/-- Enterprise-support file: tenant `40` at 10 (per cent). -/
def w1Esf : List ESRow := [⟨"40", some 10⟩]

/-- The Enterprise Support synthetic term of the run. -/
def wTES : SynthTerm := ⟨"c-1", "Enterprise Support", "K1", "evES"⟩

/-- The Prepaid synthetic term of the run. -/
def wTP : SynthTerm := ⟨"c-1", "Prepaid", "K1", "evP"⟩

theorem enterprise_support_value_formula_witness :
    (wTES ∈ (classify wTerms).esTerms)
    ∧ (mkESEvent (regularPart w1Raw wTerms w1Reg "2025-01-01") wTerms
        (c2iPart w1Raw wTerms w1Reg) (customer_to_enterprise_pct w1Esf w1Reg)
        "2025-01-01" wTES).value
      = roundHalfUp2
          ((((regularPart w1Raw wTerms w1Reg "2025-01-01").filter
              (fun e => decide (e.customer_id = wTES.customer_id))).map
            (fun e => e.value * amountFor wTerms wTES.customer_id e.event_type_name)).sum
            * (if 1 < (10 : ℚ) then (10 : ℚ) / 100 else (10 : ℚ)))
    ∧ (mkESEvent (regularPart w1Raw wTerms w1Reg "2025-01-01") wTerms
        (c2iPart w1Raw wTerms w1Reg) (customer_to_enterprise_pct w1Esf w1Reg)
        "2025-01-01" wTES).value = 25 :=
  ⟨by decide,
   (enterprise_support_value_formula w1Raw wTerms w1Esf w1Reg "2025-01-01" wTES
     (by decide) 10 (by decide) (by decide) (by decide)).2,
   by decide⟩

theorem prepaid_value_formula_witness :
    (wTP ∈ (classify wTerms).pTerms)
    ∧ (mkPrepaidEvent
        (regularPart w1Raw wTerms w1Reg "2025-01-01"
          ++ esPart w1Raw wTerms w1Esf w1Reg "2025-01-01")
        wTerms (c2iPart w1Raw wTerms w1Reg) "2025-01-01" wTP).value
      = roundHalfUp2
          ((((regularPart w1Raw wTerms w1Reg "2025-01-01"
              ++ esPart w1Raw wTerms w1Esf w1Reg "2025-01-01").filter
              (fun e => decide (e.customer_id = wTP.customer_id))).map
            (fun e => e.value * amountFor wTerms wTP.customer_id e.event_type_name)).sum)
    ∧ (mkPrepaidEvent
        (regularPart w1Raw wTerms w1Reg "2025-01-01"
          ++ esPart w1Raw wTerms w1Esf w1Reg "2025-01-01")
        wTerms (c2iPart w1Raw wTerms w1Reg) "2025-01-01" wTP).value = 275 :=
  ⟨by decide,
   (prepaid_value_formula w1Raw wTerms w1Esf w1Reg "2025-01-01" wTP
     (by decide) (by decide)).2.2,
   by decide⟩

theorem es_event_always_emitted_witness :
    ((⟨"cust-1", "Enterprise Support", "", "ev-es"⟩ : SynthTerm)
        ∈ (classify exTerms).esTerms)
    ∧ regularPart exRaw exTerms exReg "2025-01-01" ≠ []
    ∧ mkESEvent (regularPart exRaw exTerms exReg "2025-01-01") exTerms
        (c2iPart exRaw exTerms exReg) (customer_to_enterprise_pct [] exReg)
        "2025-01-01" (⟨"cust-1", "Enterprise Support", "", "ev-es"⟩ : SynthTerm)
      ∈ create_tabs_ready_usage exRaw exTerms [] exReg "2025-01-01"
    ∧ (mkESEvent (regularPart exRaw exTerms exReg "2025-01-01") exTerms
        (c2iPart exRaw exTerms exReg) (customer_to_enterprise_pct [] exReg)
        "2025-01-01" (⟨"cust-1", "Enterprise Support", "", "ev-es"⟩ : SynthTerm)).value = 0 :=
  ⟨by decide, by decide,
   (es_event_always_emitted exRaw exTerms [] exReg "2025-01-01"
     ⟨"cust-1", "Enterprise Support", "", "ev-es"⟩ (by decide) (by decide)).1,
   (es_event_always_emitted exRaw exTerms [] exReg "2025-01-01"
     ⟨"cust-1", "Enterprise Support", "", "ev-es"⟩ (by decide) (by decide)).2.2
     (by decide)⟩
